import Mathlib

/-
Verification development for the `notes` repository: a shallow embedding of
the snapshot/version-history engine (`src/app.rs`), the daemon debounce loop
and singleton check (`src/daemon.rs`), and the helpers they use
(`src/utils.rs`, `src/paths.rs`).

Modelling conventions:
- File bytes are `List Nat`; the filesystem visible to the core is modelled
  inside `AppState` as association lists: version blobs keyed by their
  root-relative path, working-copy files keyed by slug (a missing key models
  a missing file).
- The in-memory `Index` (a `HashMap<String, NoteMeta>`) is modelled as an
  association list with first-occurrence lookup/update semantics, matching a
  hash map whose keys are unique.
- The SHA-256 `hash_bytes` function is kept abstract: every operation takes
  an arbitrary `hashB : Bytes → String` parameter, matching the code's use of
  the hash only as an opaque comparable digest.
- Timestamps (`chrono::DateTime<Utc>`) are modelled as `Nat` values passed in
  as `now`; the timestamp-derived default title is abstracted to
  `"note-" ++ toString now`.
- `anyhow` errors are modelled by the inductive `Err`; a Rust panic
  (the `expect` in `current_version_path`) is the distinguished `Err.panicked`
  so that crashing is observably different from returning an error.
-/

namespace Notes

abbrev Bytes := List Nat

/-- Association-list lookup, first occurrence wins (models `HashMap::get`). -/
def alookup {α : Type} : List (String × α) → String → Option α
  | [], _ => none
  | (k, v) :: rest, key => if k = key then some v else alookup rest key

/-- Association-list insert-or-replace (models `HashMap::insert` and
`fs::write`, which overwrites an existing file). -/
def assocInsert {α : Type} (key : String) (val : α) : List (String × α) → List (String × α)
  | [] => [(key, val)]
  | (k, v) :: rest => if k = key then (key, val) :: rest else (k, v) :: assocInsert key val rest

/-- Update the value at a key in place (models mutating through
`HashMap::get_mut`); only the first occurrence is touched. -/
def updateEntries {α : Type} : List (String × α) → String → (α → α) → List (String × α)
  | [], _, _ => []
  | (k, v) :: rest, key, f => if k = key then (k, f v) :: rest else (k, v) :: updateEntries rest key f

/-- Remove the entry at a key (models `HashMap::remove` / `fs::remove_file`). -/
def eraseKey {α : Type} : List (String × α) → String → List (String × α)
  | [], _ => []
  | (k, v) :: rest, key => if k = key then rest else (k, v) :: eraseKey rest key

/-- One step of `slugify`'s character loop (`src/utils.rs`): ASCII
alphanumerics are lowercased and kept; whitespace, hyphen and underscore
collapse to a single hyphen; everything else is dropped. -/
def slugifyStep (acc : List Char) (c : Char) : List Char :=
  if c.isAlphanum then acc ++ [c.toLower]
  else if c.isWhitespace || c = '-' || c = '_' then
    if acc.getLast? = some '-' then acc else acc ++ ['-']
  else acc

/-- `slugify` from `src/utils.rs`: fold the loop, strip one trailing hyphen,
fall back to `"note"` for an empty result. -/
def slugify (input : String) : String :=
  let slug := input.data.foldl slugifyStep []
  let slug := if slug.getLast? = some '-' then slug.dropLast else slug
  if slug.isEmpty then "note" else String.mk slug

/-- Is the first character list an initial segment of the second? -/
def listStarts : List Char → List Char → Bool
  | [], _ => true
  | _ :: _, [] => false
  | a :: as, b :: bs => a == b && listStarts as bs

/-- Lowercasing of a string, character by character, modelling
`str::to_lowercase` / `to_ascii_lowercase` (structural, unlike the library
version, so that concrete instances evaluate). -/
def strLower (s : String) : String := String.mk (s.data.map Char.toLower)

/-- Whitespace trimming at both ends, modelling `str::trim`. -/
def strTrim (s : String) : String :=
  String.mk (((s.data.dropWhile Char.isWhitespace).reverse.dropWhile Char.isWhitespace).reverse)

/-- Is the first string an initial segment of the second
(models `Path::starts_with` on our flat path strings)? -/
def strStarts (pre s : String) : Bool :=
  listStarts pre.data s.data

/-- Zero-padded seven-digit version number, the `{:07}` format of
`format!("versions/{}/{:07}.md", ...)`. -/
def pad7 (n : Nat) : String :=
  let s := toString n
  String.mk (List.replicate (7 - s.length) '0') ++ s

/-- Relative path of a version blob: `versions/<slug>/<0-padded version>.md`. -/
def version_rel (slug : String) (n : Nat) : String :=
  "versions/" ++ slug ++ "/" ++ pad7 n ++ ".md"

/-- Relative path of a working copy: `files/<slug>.md`
(`DataPaths::working_file` in `src/paths.rs`). -/
def working_file (slug : String) : String :=
  "files/" ++ slug ++ ".md"

/-- `VersionMeta` from `src/app.rs` (one immutable snapshot record). -/
structure VersionMeta where
  version : Nat
  path : String
  hash : String
  created_at : Nat
  deriving Repr, DecidableEq

/-- `NoteMeta` from `src/app.rs` (one per note in the index). -/
structure NoteMeta where
  title : String
  slug : String
  created_at : Nat
  updated_at : Nat
  current_version : Nat
  versions : List VersionMeta
  working_hash : Option String
  deriving Repr, DecidableEq

/-- The whole state a `NotesApp` can observe and mutate: the in-memory index
plus the on-disk version blobs and working copies. -/
structure AppState where
  notes : List (String × NoteMeta)
  blobs : List (String × Bytes)
  workings : List (String × Bytes)
  deriving Repr, DecidableEq

/-- Error kinds carried by the `anyhow` errors of `src/app.rs`;
`panicked` models the `expect` panic in `current_version_path`. -/
inductive Err where
  | notFound (what : String)
  | ambiguous (what : String)
  | invalidOp (msg : String)
  | ioError (path : String)
  | panicked
  deriving Repr, DecidableEq

deriving instance DecidableEq for Except

/-- `NotesApp::current_version_path`: the blob path of the record matching
`current_version`, else the last record; `none` models the `expect("note has
versions")` panic on an empty list. -/
def current_version_path (note : NoteMeta) : Option String :=
  match note.versions.find? (fun v => v.version == note.current_version) with
  | some v => some v.path
  | none => (note.versions.getLast?).map VersionMeta.path

/-- `NotesApp::ensure_working_copy_exists`: materialize the working copy from
the current version's blob when the working file is missing. -/
def ensure_working_copy_exists (s : AppState) (slug : String) : Except Err AppState :=
  if (alookup s.workings slug).isSome then .ok s
  else
    match alookup s.notes slug with
    | none => .error (.notFound slug)
    | some note =>
      match current_version_path note with
      | none => .error .panicked
      | some path =>
        match alookup s.blobs path with
        | none => .error (.ioError path)
        | some content => .ok { s with workings := assocInsert slug content s.workings }

/-- `NotesApp::resolve_slug`: exact key match first, then one scan for a
case-insensitive title match or a (lowercased-identifier) slug match. -/
def resolve_slug (s : AppState) (identifier : String) : Option String :=
  if (alookup s.notes identifier).isSome then some identifier
  else
    let idLower := strLower identifier
    ((s.notes.map Prod.snd).find?
      (fun note => strLower note.title == idLower || note.slug == idLower)).map NoteMeta.slug

/-- `NotesApp::resolve_unique_title_slug`: despite its name it matches only
notes whose lowercased slug equals the raw identifier, and demands a unique
match. -/
def resolve_unique_title_slug (s : AppState) (title : String) : Except Err String :=
  match (s.notes.map Prod.snd).filter (fun note => strLower note.slug == title) with
  | [] => .error (.notFound title)
  | [note] => .ok note.slug
  | _ => .error (.ambiguous title)

/-- The mutation applied to a note when a new version is recorded (shared by
`snapshot_if_changed`'s append arm and `rollback`): push the record, advance
`current_version`, refresh `updated_at` and `working_hash`. -/
def bumpNote (meta : VersionMeta) (now newNum : Nat) (hash : String) (n : NoteMeta) : NoteMeta :=
  { n with versions := n.versions ++ [meta], current_version := newNum,
           updated_at := now, working_hash := some hash }

/-- The mutation applied to a note on the unchanged path: only refresh the
cached `working_hash`. -/
def cacheHash (hash : String) (n : NoteMeta) : NoteMeta :=
  { n with working_hash := some hash }

section Core

variable (hashB : Bytes → String)

/-- The append arm of `snapshot_if_changed` (`src/app.rs` lines 331-355):
write the new blob, push a `VersionMeta`, advance `current_version`, refresh
`updated_at` and `working_hash`. -/
def snapshotAppend (now : Nat) (s : AppState) (slug : String) (note : NoteMeta)
    (content : Bytes) (hash : String) : Except Err Bool × AppState :=
  let newNum := note.current_version + 1
  let rel := version_rel slug newNum
  let s₁ : AppState := { s with blobs := assocInsert rel content s.blobs }
  let meta : VersionMeta := ⟨newNum, rel, hash, now⟩
  (.ok true,
    { s₁ with notes := (updateEntries s₁.notes slug (bumpNote meta now newNum hash)) })

/-- `NotesApp::snapshot_if_changed`: ensure the working copy exists, read it,
hash it, compare against the hash of the last version record; if equal only
refresh `working_hash`, otherwise append a new version. The returned state is
the state after whatever mutations happened before a failure. -/
def snapshot_if_changed (now : Nat) (s : AppState) (slug : String) : Except Err Bool × AppState :=
  match ensure_working_copy_exists s slug with
  | .error e => (.error e, s)
  | .ok s₀ =>
    match alookup s₀.notes slug with
    | none => (.error (.notFound slug), s₀)
    | some note =>
      match alookup s₀.workings slug with
      | none => (.error (.ioError (working_file slug)), s₀)
      | some content =>
        let hash := hashB content
        match note.versions.getLast? with
        | some last =>
          if last.hash = hash then
            (.ok false,
              { s₀ with notes := (updateEntries s₀.notes slug (cacheHash hash)) })
          else snapshotAppend now s₀ slug note content hash
        | none => snapshotAppend now s₀ slug note content hash

/-- Target version resolution inside `rollback`: the explicit argument, or
`current_version.saturating_sub(1)` when omitted. -/
def rollback_desired (note : NoteMeta) : Option Nat → Nat
  | some v => v
  | none => note.current_version - 1

/-- `NotesApp::rollback`: resolve the identifier, snapshot pending edits,
resolve the target version, then copy the target blob forward as a brand-new
version and overwrite the working copy with it. -/
def rollback (now : Nat) (s : AppState) (identifier : String)
    (target_version : Option Nat) : Except Err String × AppState :=
  match resolve_slug s identifier with
  | none => (.error (.notFound identifier), s)
  | some slug =>
    match snapshot_if_changed hashB now s slug with
    | (.error e, s₁) => (.error e, s₁)
    | (.ok _, s₁) =>
      match alookup s₁.notes slug with
      | none => (.error (.notFound identifier), s₁)
      | some note =>
        let desired := rollback_desired note target_version
        if desired = 0 then
          (.error (.invalidOp "no previous version"), s₁)
        else
          match note.versions.find? (fun v => v.version == desired) with
          | none => (.error (.notFound ("version " ++ toString desired)), s₁)
          | some target =>
            match alookup s₁.blobs target.path with
            | none => (.error (.ioError target.path), s₁)
            | some content =>
              let hash := hashB content
              let newNum := note.current_version + 1
              let rel := version_rel slug newNum
              let s₂ : AppState := { s₁ with blobs := assocInsert rel content s₁.blobs }
              let meta : VersionMeta := ⟨newNum, rel, hash, now⟩
              let s₃ : AppState :=
                { s₂ with notes := (updateEntries s₂.notes slug (bumpNote meta now newNum hash)) }
              (.ok (working_file slug), { s₃ with workings := assocInsert slug content s₃.workings })

/-- The slug-collision loop of `create_note`: append an incrementing numeric
suffix until the slug is free. Fuel bounds the loop; `notes.length + 1`
candidates always suffice since candidates are pairwise distinct. -/
def find_free_slug (notes : List (String × NoteMeta)) (base : String) :
    Nat → Nat → String → String
  | 0, _, slug => slug
  | fuel + 1, counter, slug =>
    if (alookup notes slug).isSome then
      find_free_slug notes base fuel (counter + 1) (base ++ "-" ++ toString (counter + 1))
    else slug

/-- `NotesApp::create_note`: derive a fresh slug, write an empty version-1
blob and an empty working copy, and insert the index entry with
`working_hash` set to the hash of empty content. -/
def create_note (now : Nat) (s : AppState) (titleArg : Option String) :
    Except Err String × AppState :=
  let title := match titleArg with
    | some t => t
    | none => "note-" ++ toString now
  let slug := find_free_slug s.notes (slugify title) (s.notes.length + 1) 1 (slugify title)
  let rel := version_rel slug 1
  let s₁ : AppState := { s with blobs := assocInsert rel [] s.blobs }
  let s₂ : AppState := { s₁ with workings := assocInsert slug [] s₁.workings }
  let hash := hashB []
  let meta : NoteMeta :=
    { title := title, slug := slug, created_at := now, updated_at := now,
      current_version := 1, versions := [⟨1, rel, hash, now⟩], working_hash := some hash }
  (.ok (working_file slug), { s₂ with notes := assocInsert slug meta s₂.notes })

/-- `NotesApp::open_note`: resolve, snapshot pending changes, return the
working-copy path. -/
def open_note (now : Nat) (s : AppState) (identifier : String) : Except Err String × AppState :=
  match resolve_slug s identifier with
  | none => (.error (.notFound identifier), s)
  | some slug =>
    match snapshot_if_changed hashB now s slug with
    | (.error e, s₁) => (.error e, s₁)
    | (.ok _, s₁) => (.ok (working_file slug), s₁)

end Core

/-- `NotesApp::list_versions`: resolve the identifier and return the ordered
`(version, path)` history (the printed lines, minus timestamps). -/
def list_versions (s : AppState) (identifier : String) : Except Err (List (Nat × String)) :=
  match resolve_slug s identifier with
  | none => .error (.notFound identifier)
  | some slug =>
    match alookup s.notes slug with
    | none => .error (.notFound identifier)
    | some note => .ok (note.versions.map (fun v => (v.version, v.path)))

/-- `NotesApp::delete_note_by_title`: resolve via the unique-slug rule, then
remove the index entry, the working file (if present) and every blob under
`versions/<slug>/`. On a resolution error nothing is touched. -/
def delete_note_by_title (s : AppState) (title : String) : Except Err String × AppState :=
  match resolve_unique_title_slug s title with
  | .error e => (.error e, s)
  | .ok slug =>
    match alookup s.notes slug with
    | none => (.error (.notFound title), s)
    | some note =>
      let s₁ : AppState := { s with notes := eraseKey s.notes slug }
      let s₂ : AppState := { s₁ with workings := eraseKey s₁.workings slug }
      let dir := "versions/" ++ slug ++ "/"
      let s₃ : AppState := { s₂ with blobs := s₂.blobs.filter (fun kv => !(strStarts dir kv.1)) }
      (.ok note.slug, s₃)

/-- ASCII lowercasing of one byte, modelling `str::to_lowercase` as applied
to the byte content read by `search`. -/
def lowerByte (b : Nat) : Nat := if 65 ≤ b ∧ b ≤ 90 then b + 32 else b

/-- Does `needle` occur at the head of `hay`? -/
def startsWithSeq : Bytes → Bytes → Bool
  | [], _ => true
  | _ :: _, [] => false
  | a :: as, b :: bs => a == b && startsWithSeq as bs

/-- Does `needle` occur contiguously anywhere in `hay`
(models `str::contains`)? -/
def containsSeq (needle : Bytes) : Bytes → Bool
  | [] => needle.isEmpty
  | h :: t => startsWithSeq needle (h :: t) || containsSeq needle t

/-- Stable insertion used to model `sort_by` on lowercased titles. -/
def insertByTitle (n : NoteMeta) : List NoteMeta → List NoteMeta
  | [] => [n]
  | m :: rest =>
    if !(strLower m.title < strLower n.title) then n :: m :: rest
    else m :: insertByTitle n rest

/-- Stable sort of the notes by lowercased title, as `search` and
`list_notes` do before iterating. -/
def sortByTitle : List NoteMeta → List NoteMeta
  | [] => []
  | n :: rest => insertByTitle n (sortByTitle rest)

/-- The body of `search`'s loop: read each note's current blob
(`unwrap_or_else` turns read failures into empty content, but the
`current_version_path` panic propagates as `none`) and collect the slugs of
matching notes. -/
def searchLoop (s : AppState) (needle : Bytes) : List NoteMeta → Option (List String)
  | [] => some []
  | note :: rest =>
    match current_version_path note with
    | none => none
    | some path =>
      let content := (alookup s.blobs path).getD []
      match searchLoop s needle rest with
      | none => none
      | some acc =>
        if containsSeq needle (content.map lowerByte) then some (note.slug :: acc)
        else some acc

/-- `NotesApp::search` over byte content: lowercase the query, iterate the
title-sorted notes, return the matching slugs (`none` models a panic). -/
def search (s : AppState) (query : Bytes) : Option (List String) :=
  searchLoop s (query.map lowerByte) (sortByTitle (s.notes.map Prod.snd))

/-- One core mutation, for stating sequence invariants: the three operations
that touch a note's version history. -/
inductive Op where
  | createOp (now : Nat) (title : Option String)
  | snapshotOp (now : Nat) (slug : String)
  | rollbackOp (now : Nat) (identifier : String) (target : Option Nat)
  deriving Repr

/-- Apply one operation, keeping whatever state it leaves behind (errors
included, so the invariant theorem also covers failed attempts). -/
def apply_op (hashB : Bytes → String) (s : AppState) : Op → AppState
  | .createOp now title => (create_note hashB now s title).2
  | .snapshotOp now slug => (snapshot_if_changed hashB now s slug).2
  | .rollbackOp now ident tgt => (rollback hashB now s ident tgt).2

/-- Apply a sequence of operations in order. -/
def apply_ops (hashB : Bytes → String) (s : AppState) : List Op → AppState
  | [] => s
  | op :: rest => apply_ops hashB (apply_op hashB s op) rest

/-- The version-history invariant for one note: the version numbers are
exactly `1, 2, ..., n` in order (sorted strictly ascending, starting at 1,
no duplicates or gaps), the list is nonempty, and `current_version` is the
highest (= last = length). -/
def versions_ok (note : NoteMeta) : Prop :=
  note.versions.map VersionMeta.version = List.range' 1 note.versions.length ∧
  note.current_version = note.versions.length ∧
  1 ≤ note.versions.length

instance versions_ok_decidable (note : NoteMeta) : Decidable (versions_ok note) := by
  unfold versions_ok
  exact inferInstance

/-- Every note of the index satisfies the version-history invariant. -/
def index_ok (s : AppState) : Prop :=
  ∀ kn ∈ s.notes, versions_ok kn.2

instance index_ok_decidable (s : AppState) : Decidable (index_ok s) := by
  unfold index_ok
  exact inferInstance

/-- A concrete hash function used to instantiate the abstract digest in
witnesses: the printed byte list, which is injective. -/
def demoHash (b : Bytes) : String := toString b

/-- The empty store (fresh data root). -/
def emptyState : AppState := ⟨[], [], []⟩

/-- A raw write of a note's working copy (what an external editor, a test, or
`fs::write(&working_path, ...)` does): overwrite `files/<slug>.md`. -/
def write_working (s : AppState) (slug : String) (content : Bytes) : AppState :=
  { s with workings := assocInsert slug content s.workings }

/-- The store right after `notes new Retro` on a fresh root (the spec's
rollback scenario, step 1). -/
def retroState0 : AppState := (create_note demoHash 0 emptyState (some "Retro")).2

/-- The Retro store after the editor writes `"v2"` (bytes `[118, 50]`) to the
working copy (scenario step 2). -/
def retroState1 : AppState := write_working retroState0 "retro" [118, 50]

/-- The Retro store after the sync promotes the edit to version 2
(scenario step 3). -/
def retroState2 : AppState := (snapshot_if_changed demoHash 1 retroState1 "retro").2

/-- A store with one note whose title `My Note` matches the identifier
`my note` case-insensitively while no slug does. -/
def myNoteState : AppState := (create_note demoHash 0 emptyState (some "My Note")).2

/-- A hand-crafted index (as `index.json` could contain) with two notes whose
slugs coincide once lowercased, so a delete identifier can match both. -/
def ambigState : AppState :=
  ⟨[("a", { title := "A", slug := "Foo", created_at := 0, updated_at := 0,
            current_version := 1,
            versions := [⟨1, version_rel "Foo" 1, demoHash [], 0⟩],
            working_hash := some (demoHash []) }),
    ("b", { title := "B", slug := "foo", created_at := 0, updated_at := 0,
            current_version := 1,
            versions := [⟨1, version_rel "foo" 1, demoHash [], 0⟩],
            working_hash := some (demoHash []) })],
   [(version_rel "Foo" 1, []), (version_rel "foo" 1, [])],
   [("Foo", []), ("foo", [])]⟩

/-- A metadata state violating the every-note-has-a-version invariant: one
note with an empty `versions` list and no working copy on disk. -/
def emptyVersionsState : AppState :=
  ⟨[("ghost", { title := "Ghost", slug := "ghost", created_at := 0, updated_at := 0,
                current_version := 1, versions := [], working_hash := none })],
   [], []⟩

/-- The daemon's cooldown window, `Duration::from_secs(30)` in
`run_daemon` (`src/daemon.rs`); times are modelled in seconds. -/
def cooldown : Nat := 30

/-- The mutable state of `run_daemon`'s event loop: the dirty flag
(`pending`) and the instant of the last qualifying event (`last_event`). -/
structure DState where
  pending : Bool
  last_event : Nat
  deriving Repr, DecidableEq

/-- One message the loop's `rx.recv_timeout(cooldown)` can yield: a
filesystem event (with its paths and arrival time), a watch error, a timeout
expiry (with the current time), or a closed channel. -/
inductive DaemonMsg where
  | fsEvent (paths : List String) (time : Nat)
  | watchError
  | timeout (time : Nat)
  | disconnected
  deriving Repr, DecidableEq

/-- ASCII-case-insensitive equality of two character lists, modelling
`OsStr::eq_ignore_ascii_case`. -/
def eqIgnoreAsciiCase (a b : List Char) : Bool :=
  a.map Char.toLower == b.map Char.toLower

/-- The file-name component of a path: everything after the last slash. -/
def fileNameChars (p : List Char) : List Char :=
  ((p.reverse).takeWhile (fun c => c ≠ '/')).reverse

/-- `Path::extension` on a file name: the part after the last dot, or none
when there is no dot or the only dot is the leading one of a hidden file. -/
def extensionOf (name : List Char) : Option (List Char) :=
  let extRev := (name.reverse).takeWhile (fun c => c ≠ '.')
  if extRev.length = name.length then none
  else if name.length - extRev.length - 1 = 0 then none
  else some extRev.reverse

/-- The daemon's event filter: does the path's extension equal `md`
ignoring ASCII case? -/
def path_is_md (p : String) : Bool :=
  match extensionOf (fileNameChars p.data) with
  | some ext => eqIgnoreAsciiCase ext ['m', 'd']
  | none => false

/-- An event qualifies when any of its paths has the note extension
(`event.paths.iter().any(...)`). -/
def event_qualifies (paths : List String) : Bool := paths.any path_is_md

/-- One iteration of `run_daemon`'s loop on one received message; the `Bool`
result records whether a synchronization pass was executed. A qualifying
event sets the dirty flag and the event time; a timeout runs a pass exactly
when the flag is set and a full cooldown has elapsed since the last event,
then clears the flag. -/
def dstep (st : DState) : DaemonMsg → DState × Bool
  | .fsEvent paths t => if event_qualifies paths then (⟨true, t⟩, false) else (st, false)
  | .watchError => (st, false)
  | .timeout t =>
    if st.pending = true ∧ cooldown ≤ t - st.last_event then (⟨false, st.last_event⟩, true)
    else (st, false)
  | .disconnected => (st, false)

/-- Number of synchronization passes the loop executes on a message list;
`disconnected` breaks the loop. -/
def pass_count (st : DState) : List DaemonMsg → Nat
  | [] => 0
  | DaemonMsg.disconnected :: _ => 0
  | m :: rest =>
    let r := dstep st m
    (if r.2 then 1 else 0) + pass_count r.1 rest

/-- The time carried by a message, when it has one. -/
def msg_time : DaemonMsg → Option Nat
  | .fsEvent _ t => some t
  | .timeout t => some t
  | _ => none

/-- Message times are nondecreasing starting from `t0` (the loop observes a
monotone clock). -/
def times_mono (t0 : Nat) : List DaemonMsg → Bool
  | [] => true
  | m :: rest =>
    match msg_time m with
    | none => times_mono t0 rest
    | some t => decide (t0 ≤ t) && times_mono t rest

/-- The arrival times of the qualifying events in a message list. -/
def qual_times : List DaemonMsg → List Nat
  | [] => []
  | DaemonMsg.fsEvent paths t :: rest =>
    if event_qualifies paths then t :: qual_times rest else qual_times rest
  | _ :: rest => qual_times rest

/-- Result of probing a process id with `libc::kill(pid, 0)`: the process is
alive, the probe failed with `ESRCH` (no such process), or it failed with
some other error. -/
inductive ProbeResult where
  | live
  | esrch
  | otherErr
  deriving Repr, DecidableEq

/-- All-digit string to number; `none` when empty or non-digit. -/
def digitsToNat : List Char → Option Nat
  | [] => none
  | l =>
    if l.all Char.isDigit then some (l.foldl (fun acc c => acc * 10 + (c.toNat - 48)) 0)
    else none

/-- `str::parse::<i32>`: an optional sign followed by decimal digits, within
the `i32` range. -/
def parse_i32 (s : String) : Option Int :=
  match s.data with
  | '+' :: rest => (digitsToNat rest).bind (fun n => if n ≤ 2147483647 then some (Int.ofNat n) else none)
  | '-' :: rest => (digitsToNat rest).bind (fun n => if n ≤ 2147483648 then some (-(Int.ofNat n)) else none)
  | l => (digitsToNat l).bind (fun n => if n ≤ 2147483647 then some (Int.ofNat n) else none)

/-- `daemon_running` from `src/daemon.rs` on unix, parameterized by the
liveness probe. Input: the contents of `daemon.pid` (`none` when the file is
absent). Output: whether a watcher is considered running, and the marker
file's contents afterwards (`none` when it was removed). -/
def daemon_running (probe : Int → ProbeResult) (pidFile : Option String) :
    Bool × Option String :=
  match pidFile with
  | none => (false, none)
  | some content =>
    match parse_i32 (strTrim content) with
    | none => (false, some content)
    | some pid =>
      if pid ≤ 0 then (false, some content)
      else
        match probe pid with
        | .live => (true, some content)
        | .esrch => (false, none)
        | .otherErr => (false, some content)

/-- `ensure_daemon_running` reduced to its spawn decision: when the
disable-daemon environment variable is unset, a new watcher process is
spawned exactly when `daemon_running` reports false. Output: whether a
watcher was spawned, and the marker file afterwards. -/
def ensure_daemon_running (probe : Int → ProbeResult) (disableEnv : Bool)
    (pidFile : Option String) : Bool × Option String :=
  if disableEnv then (false, pidFile)
  else
    let r := daemon_running probe pidFile
    (!r.1, r.2)

/-! Association-list lemmas. -/

theorem alookup_assocInsert_self {α : Type} (l : List (String × α)) (k : String) (v : α) :
    alookup (assocInsert k v l) k = some v := by
  induction l with
  | nil => simp [assocInsert, alookup]
  | cons hd t ih =>
    obtain ⟨k', v'⟩ := hd
    by_cases hk : k' = k
    · simp [assocInsert, hk, alookup]
    · simp [assocInsert, hk, alookup, ih]

theorem alookup_assocInsert_ne {α : Type} (l : List (String × α)) (k key : String) (v : α)
    (h : k ≠ key) : alookup (assocInsert key v l) k = alookup l k := by
  have h' : key ≠ k := Ne.symm h
  induction l with
  | nil => simp [assocInsert, alookup, h']
  | cons hd t ih =>
    obtain ⟨k', v'⟩ := hd
    by_cases hk : k' = key
    · subst hk
      simp [assocInsert, alookup, h']
    · simp only [assocInsert, if_neg hk, alookup]
      by_cases hk2 : k' = k <;> simp [hk2, ih]

theorem alookup_updateEntries_self {α : Type} (l : List (String × α)) (key : String)
    (f : α → α) : alookup (updateEntries l key f) key = (alookup l key).map f := by
  induction l with
  | nil => simp [updateEntries, alookup]
  | cons hd t ih =>
    obtain ⟨k', v'⟩ := hd
    by_cases hk : k' = key
    · simp [updateEntries, hk, alookup]
    · simp [updateEntries, hk, alookup, ih]

theorem alookup_updateEntries_ne {α : Type} (l : List (String × α)) (k key : String)
    (f : α → α) (h : k ≠ key) : alookup (updateEntries l key f) k = alookup l k := by
  have h' : key ≠ k := Ne.symm h
  induction l with
  | nil => simp [updateEntries, alookup]
  | cons hd t ih =>
    obtain ⟨k', v'⟩ := hd
    by_cases hk : k' = key
    · subst hk
      simp [updateEntries, alookup, h']
    · simp only [updateEntries, if_neg hk, alookup]
      by_cases hk2 : k' = k <;> simp [hk2, ih]

theorem updateEntries_eq_self {α : Type} (l : List (String × α)) (key : String) (f : α → α)
    (h : ∀ v, alookup l key = some v → f v = v) : updateEntries l key f = l := by
  induction l with
  | nil => simp [updateEntries]
  | cons hd t ih =>
    obtain ⟨k', v'⟩ := hd
    by_cases hk : k' = key
    · subst hk
      have hv : f v' = v' := h v' (by simp [alookup])
      simp [updateEntries, hv]
    · simp only [updateEntries, if_neg hk]
      have := ih (fun v hv => h v (by simpa [alookup, hk] using hv))
      simp [this]

theorem alookup_mem {α : Type} {l : List (String × α)} {k : String} {v : α}
    (h : alookup l k = some v) : (k, v) ∈ l := by
  induction l with
  | nil => simp [alookup] at h
  | cons hd t ih =>
    obtain ⟨k', v'⟩ := hd
    by_cases hk : k' = k
    · subst hk
      simp [alookup] at h
      simp [h]
    · simp only [alookup, if_neg hk] at h
      exact List.mem_cons_of_mem _ (ih h)

theorem forall_updateEntries {α : Type} (p : α → Prop) (l : List (String × α)) (key : String)
    (f : α → α) (hall : ∀ kn ∈ l, p kn.2) (hf : ∀ v, alookup l key = some v → p (f v)) :
    ∀ kn ∈ updateEntries l key f, p kn.2 := by
  induction l with
  | nil => simp [updateEntries]
  | cons hd t ih =>
    obtain ⟨k', v'⟩ := hd
    by_cases hk : k' = key
    · subst hk
      simp only [updateEntries, if_pos rfl]
      intro kn hkn
      rcases List.mem_cons.1 hkn with h | h
      · subst h
        exact hf v' (by simp [alookup])
      · exact hall kn (List.mem_cons_of_mem _ h)
    · simp only [updateEntries, if_neg hk]
      intro kn hkn
      rcases List.mem_cons.1 hkn with h | h
      · subst h
        exact hall (k', v') (by simp)
      · exact ih (fun x hx => hall x (List.mem_cons_of_mem _ hx))
          (fun v hv => hf v (by simpa [alookup, hk] using hv)) kn h

theorem forall_assocInsert {α : Type} (p : α → Prop) (l : List (String × α)) (key : String)
    (v : α) (hall : ∀ kn ∈ l, p kn.2) (hv : p v) :
    ∀ kn ∈ assocInsert key v l, p kn.2 := by
  induction l with
  | nil => simpa [assocInsert]
  | cons hd t ih =>
    obtain ⟨k', v'⟩ := hd
    by_cases hk : k' = key
    · subst hk
      simp only [assocInsert, if_pos rfl]
      intro kn hkn
      rcases List.mem_cons.1 hkn with h | h
      · subst h; exact hv
      · exact hall kn (List.mem_cons_of_mem _ h)
    · simp only [assocInsert, if_neg hk]
      intro kn hkn
      rcases List.mem_cons.1 hkn with h | h
      · subst h
        exact hall (k', v') (by simp)
      · exact ih (fun x hx => hall x (List.mem_cons_of_mem _ hx)) kn h

/-! Facts about `ensure_working_copy_exists` and invariant preservation. -/

theorem ensure_ok_facts {s s' : AppState} {slug : String}
    (h : ensure_working_copy_exists s slug = .ok s') :
    s'.notes = s.notes ∧ s'.blobs = s.blobs ∧ (alookup s'.workings slug).isSome = true := by
  unfold ensure_working_copy_exists at h
  split at h
  · injection h with h
    subst h
    exact ⟨rfl, rfl, by assumption⟩
  · split at h
    · simp at h
    · split at h
      · simp at h
      · split at h
        · simp at h
        · injection h with h
          subst h
          exact ⟨rfl, rfl, by simp [alookup_assocInsert_self]⟩

theorem versions_ok_cacheHash (hash : String) (n : NoteMeta) (h : versions_ok n) :
    versions_ok (cacheHash hash n) := by
  simpa [versions_ok, cacheHash] using h

theorem versions_ok_bump (note : NoteMeta) (h : versions_ok note) (path hash : String)
    (now created : Nat) :
    versions_ok (bumpNote ⟨note.current_version + 1, path, hash, created⟩ now
      (note.current_version + 1) hash note) := by
  obtain ⟨hmap, hcur, hlen⟩ := h
  refine ⟨?_, ?_, ?_⟩
  · simp only [bumpNote, List.map_append, List.length_append, List.map_cons, List.map_nil,
      List.length_cons, List.length_nil]
    rw [hmap, hcur, List.range'_concat]
    simp [Nat.add_comm]
  · simp only [bumpNote, List.length_append, List.length_cons, List.length_nil]
    omega
  · simp only [bumpNote, List.length_append, List.length_cons, List.length_nil]
    omega

theorem snapshotAppend_preserves_index_ok (now : Nat) (s : AppState) (slug : String)
    (note : NoteMeta) (content : Bytes) (hash : String)
    (h : index_ok s) (hn : alookup s.notes slug = some note) (hok : versions_ok note) :
    index_ok (snapshotAppend now s slug note content hash).2 := by
  unfold snapshotAppend index_ok
  intro kn hkn
  refine forall_updateEntries versions_ok _ _ _ (fun x hx => h x hx) ?_ kn hkn
  intro v hv
  rw [hn] at hv
  injection hv with hv
  subst hv
  exact versions_ok_bump note hok _ _ _ _

theorem snapshot_preserves_index_ok (hashB : Bytes → String) (now : Nat) (s : AppState)
    (slug : String) (h : index_ok s) :
    index_ok (snapshot_if_changed hashB now s slug).2 := by
  unfold snapshot_if_changed
  split
  · exact h
  next s₀ hE =>
    obtain ⟨hnotes, hblobs, hw⟩ := ensure_ok_facts hE
    have h₀ : index_ok s₀ := by
      unfold index_ok at h ⊢
      rw [hnotes]
      exact h
    split
    · exact h₀
    next note hN =>
      split
      · exact h₀
      next content hW =>
        dsimp only
        split
        next last hL =>
          split
          · unfold index_ok
            intro kn hkn
            refine forall_updateEntries versions_ok _ _ _ (fun x hx => h₀ x hx) ?_ kn hkn
            intro v hv
            rw [hN] at hv
            injection hv with hv
            subst hv
            exact versions_ok_cacheHash _ note (h₀ (slug, note) (alookup_mem hN))
          · exact snapshotAppend_preserves_index_ok _ _ _ _ _ _ h₀ hN
              (h₀ (slug, note) (alookup_mem hN))
        · exact snapshotAppend_preserves_index_ok _ _ _ _ _ _ h₀ hN
            (h₀ (slug, note) (alookup_mem hN))

theorem rollback_preserves_index_ok (hashB : Bytes → String) (now : Nat) (s : AppState)
    (identifier : String) (tgt : Option Nat) (h : index_ok s) :
    index_ok (rollback hashB now s identifier tgt).2 := by
  unfold rollback
  split
  · exact h
  next slug hres =>
    have hsnap := snapshot_preserves_index_ok hashB now s slug h
    split
    next e s₁ hS =>
      have : s₁ = (snapshot_if_changed hashB now s slug).2 := by rw [hS]
      rw [this] at *
      exact hsnap
    next r s₁ hS =>
      have hs₁ : index_ok s₁ := by
        have : s₁ = (snapshot_if_changed hashB now s slug).2 := by rw [hS]
        rw [this]
        exact hsnap
      split
      · exact hs₁
      next note hN =>
        dsimp only
        split
        · exact hs₁
        · split
          · exact hs₁
          next target hT =>
            split
            · exact hs₁
            next content hB =>
              unfold index_ok
              intro kn hkn
              refine forall_updateEntries versions_ok _ _ _ (fun x hx => hs₁ x hx) ?_ kn hkn
              intro v hv
              rw [hN] at hv
              injection hv with hv
              subst hv
              exact versions_ok_bump note (hs₁ (slug, note) (alookup_mem hN)) _ _ _ _

theorem create_preserves_index_ok (hashB : Bytes → String) (now : Nat) (s : AppState)
    (title : Option String) (h : index_ok s) :
    index_ok (create_note hashB now s title).2 := by
  unfold create_note index_ok
  intro kn hkn
  refine forall_assocInsert versions_ok _ _ _ (fun x hx => h x hx) ?_ kn hkn
  exact ⟨by simp, by simp, by simp⟩

theorem apply_op_preserves_index_ok (hashB : Bytes → String) (s : AppState) (op : Op)
    (h : index_ok s) : index_ok (apply_op hashB s op) := by
  cases op with
  | createOp now title => exact create_preserves_index_ok hashB now s title h
  | snapshotOp now slug => exact snapshot_preserves_index_ok hashB now s slug h
  | rollbackOp now ident tgt => exact rollback_preserves_index_ok hashB now s ident tgt h

/-- C1. For every note and every sequence of core operations (create,
snapshot promotion, rollback — with any arguments, whether they succeed or
fail), the invariant `versions_ok` is preserved for every note of the index:
the `versions` list's version numbers are exactly `1, 2, ..., n` (sorted
strictly ascending from 1, no duplicates or gaps, nonempty) and
`current_version` equals `n`, the highest version number present. -/
theorem c1_version_list_invariant (hashB : Bytes → String) (s : AppState) (ops : List Op)
    (h : index_ok s) : index_ok (apply_ops hashB s ops) := by
  induction ops generalizing s with
  | nil => exact h
  | cons op rest ih =>
    exact ih (apply_op hashB s op) (apply_op_preserves_index_ok hashB s op h)

/-- Witness for C1: on the empty store, create a note, edit nothing, snapshot
it and roll it back twice; the invariant holds afterwards. -/
theorem c1_version_list_invariant_witness :
    index_ok emptyState ∧
    index_ok (apply_ops demoHash retroState1
      [Op.snapshotOp 1 "retro", Op.rollbackOp 2 "retro" (some 1),
       Op.rollbackOp 3 "Retro" none, Op.createOp 4 none]) :=
  ⟨by decide, c1_version_list_invariant demoHash retroState1 _ (by decide)⟩

/-- C2. After writing bytes `X` to a note's working copy, `snapshot_if_changed`
reports "changed", appends exactly one `VersionMeta` whose `hash` field is the
content hash of `X`, stores a blob equal to `X` at the new version's path, and
increases `current_version` by exactly 1 — provided the hash of `X` differs
from the hash of the last existing version record. -/
theorem c2_snapshot_roundtrip (hashB : Bytes → String) (now : Nat) (s : AppState)
    (slug : String) (X : Bytes) (note : NoteMeta)
    (hnote : alookup s.notes slug = some note)
    (hhash : ∀ last, note.versions.getLast? = some last → hashB X ≠ last.hash) :
    (snapshot_if_changed hashB now (write_working s slug X) slug).1 = .ok true ∧
    alookup (snapshot_if_changed hashB now (write_working s slug X) slug).2.notes slug =
      some { note with
             versions := note.versions ++
               [⟨note.current_version + 1, version_rel slug (note.current_version + 1),
                 hashB X, now⟩],
             current_version := note.current_version + 1,
             updated_at := now, working_hash := some (hashB X) } ∧
    alookup (snapshot_if_changed hashB now (write_working s slug X) slug).2.blobs
      (version_rel slug (note.current_version + 1)) = some X := by
  have hW : alookup (write_working s slug X).workings slug = some X :=
    alookup_assocInsert_self _ _ _
  have hE : ensure_working_copy_exists (write_working s slug X) slug =
      .ok (write_working s slug X) := by
    unfold ensure_working_copy_exists
    rw [hW]
    rfl
  have hN : alookup (write_working s slug X).notes slug = some note := hnote
  have hmain : snapshot_if_changed hashB now (write_working s slug X) slug =
      snapshotAppend now (write_working s slug X) slug note X (hashB X) := by
    unfold snapshot_if_changed
    rw [hE]
    simp only [hN, hW]
    cases hL : note.versions.getLast? with
    | none => rfl
    | some last =>
      simp only []
      rw [if_neg (Ne.symm (hhash last hL))]
  rw [hmain]
  unfold snapshotAppend
  dsimp only
  refine ⟨rfl, ?_, ?_⟩
  · rw [alookup_updateEntries_self, hN]
    rfl
  · exact alookup_assocInsert_self _ _ _

/-- Witness for C2: writing `"v2"` to the fresh Retro note's working copy and
snapshotting appends version 2 with blob `"v2"`. -/
theorem c2_snapshot_roundtrip_witness :
    (snapshot_if_changed demoHash 1 (write_working retroState0 "retro" [118, 50]) "retro").1 =
      .ok true ∧
    alookup (snapshot_if_changed demoHash 1
        (write_working retroState0 "retro" [118, 50]) "retro").2.notes "retro" =
      some { title := "Retro", slug := "retro", created_at := 0, updated_at := 1,
             current_version := 2,
             versions := [⟨1, version_rel "retro" 1, demoHash [], 0⟩,
                          ⟨2, version_rel "retro" 2, demoHash [118, 50], 1⟩],
             working_hash := some (demoHash [118, 50]) } ∧
    alookup (snapshot_if_changed demoHash 1
        (write_working retroState0 "retro" [118, 50]) "retro").2.blobs
      (version_rel "retro" 2) = some [118, 50] :=
  c2_snapshot_roundtrip demoHash 1 retroState0 "retro" [118, 50]
    { title := "Retro", slug := "retro", created_at := 0, updated_at := 0,
      current_version := 1,
      versions := [⟨1, version_rel "retro" 1, demoHash [], 0⟩],
      working_hash := some (demoHash []) }
    (by decide) (by decide)

/-- C5. `rollback` first snapshots the resolved note; the target then resolves
to the explicit argument or `current_version - 1` when omitted. A resolved
target of 0 — including an explicit target of 0, and an omitted target when
`current_version` is 1 — fails with the InvalidOperation-style "no previous
version" error; a nonzero target absent from `versions` fails with NotFound.
On both errors the result state is exactly the post-snapshot state `s₁`: no
version record is appended and the rollback step itself changes nothing. -/
theorem c5_rollback_error_paths (hashB : Bytes → String) (now : Nat) (s s₁ : AppState)
    (identifier slug : String) (tgt : Option Nat) (b : Bool) (note : NoteMeta)
    (hres : resolve_slug s identifier = some slug)
    (hsnap : snapshot_if_changed hashB now s slug = (.ok b, s₁))
    (hnote : alookup s₁.notes slug = some note) :
    (rollback_desired note tgt = 0 →
      rollback hashB now s identifier tgt = (.error (.invalidOp "no previous version"), s₁)) ∧
    (∀ d, rollback_desired note tgt = d → d ≠ 0 →
      (∀ v ∈ note.versions, v.version ≠ d) →
      rollback hashB now s identifier tgt =
        (.error (.notFound ("version " ++ toString d)), s₁)) ∧
    (tgt = some 0 → rollback_desired note tgt = 0) ∧
    (tgt = none → note.current_version = 1 → rollback_desired note tgt = 0) := by
  refine ⟨?_, ?_, ?_, ?_⟩
  · intro hd
    unfold rollback
    simp only [hres, hsnap, hnote]
    rw [if_pos hd]
  · intro d hd hne hmem
    have hfind : note.versions.find? (fun v => v.version == d) = none :=
      List.find?_eq_none.2 (fun x hx => by simpa using hmem x hx)
    unfold rollback
    simp only [hres, hsnap, hnote]
    rw [hd, if_neg hne, hfind]
  · intro h
    subst h
    rfl
  · intro h hcv
    subst h
    simp [rollback_desired, hcv]

/-- Witness for C5: on the fresh Retro store (only version 1 exists), a
rollback with no explicit target resolves to `1 - 1 = 0` and fails with the
"no previous version" error, leaving the post-snapshot state untouched. -/
theorem c5_rollback_error_paths_witness :
    rollback demoHash 5 retroState0 "retro" none =
      (.error (.invalidOp "no previous version"), retroState0) :=
  (c5_rollback_error_paths demoHash 5 retroState0 retroState0 "retro" "retro" none false
    { title := "Retro", slug := "retro", created_at := 0, updated_at := 0,
      current_version := 1,
      versions := [⟨1, version_rel "retro" 1, demoHash [], 0⟩],
      working_hash := some (demoHash []) }
    (by decide) (by decide) (by decide)).1 (by decide)

/-- C4. A successful rollback to an existing target version appends one
brand-new version record numbered `current_version + 1` (relative to the
post-snapshot state `s₁`) whose blob content equals the target version's blob
content, overwrites the working copy with that content, and modifies no
existing version record: the new `versions` list is the old list plus the one
appended record, and every other note is untouched. -/
theorem c4_rollback_copies_forward (hashB : Bytes → String) (now : Nat) (s s₁ : AppState)
    (identifier slug : String) (tgt : Option Nat) (b : Bool) (note : NoteMeta)
    (target : VersionMeta) (content : Bytes)
    (hres : resolve_slug s identifier = some slug)
    (hsnap : snapshot_if_changed hashB now s slug = (.ok b, s₁))
    (hnote : alookup s₁.notes slug = some note)
    (hne : rollback_desired note tgt ≠ 0)
    (hfind : note.versions.find? (fun v => v.version == rollback_desired note tgt) = some target)
    (hblob : alookup s₁.blobs target.path = some content) :
    (rollback hashB now s identifier tgt).1 = .ok (working_file slug) ∧
    alookup (rollback hashB now s identifier tgt).2.notes slug =
      some { note with
             versions := note.versions ++
               [⟨note.current_version + 1, version_rel slug (note.current_version + 1),
                 hashB content, now⟩],
             current_version := note.current_version + 1,
             updated_at := now, working_hash := some (hashB content) } ∧
    alookup (rollback hashB now s identifier tgt).2.blobs
      (version_rel slug (note.current_version + 1)) = some content ∧
    alookup (rollback hashB now s identifier tgt).2.workings slug = some content ∧
    (∀ k, k ≠ slug → alookup (rollback hashB now s identifier tgt).2.notes k =
      alookup s₁.notes k) := by
  have hmain : rollback hashB now s identifier tgt =
      (.ok (working_file slug),
        { notes := updateEntries s₁.notes slug
            (bumpNote ⟨note.current_version + 1,
                version_rel slug (note.current_version + 1), hashB content, now⟩
              now (note.current_version + 1) (hashB content)),
          blobs := assocInsert (version_rel slug (note.current_version + 1)) content s₁.blobs,
          workings := assocInsert slug content s₁.workings }) := by
    unfold rollback
    simp only [hres, hsnap, hnote]
    rw [if_neg hne]
    simp only [hfind, hblob]
  rw [hmain]
  refine ⟨rfl, ?_, ?_, ?_, ?_⟩
  · rw [alookup_updateEntries_self, hnote]
    rfl
  · exact alookup_assocInsert_self _ _ _
  · exact alookup_assocInsert_self _ _ _
  · intro k hk
    exact alookup_updateEntries_ne _ _ _ _ hk

/-- Witness for C4, the spec's concrete scenario: after creating "Retro",
promoting `"v2"` as version 2, rolling back to version 1 yields a new version
3 whose blob is empty and an empty working copy. -/
theorem c4_rollback_copies_forward_witness :
    (rollback demoHash 2 retroState2 "retro" (some 1)).1 = .ok (working_file "retro") ∧
    alookup (rollback demoHash 2 retroState2 "retro" (some 1)).2.notes "retro" =
      some { title := "Retro", slug := "retro", created_at := 0, updated_at := 2,
             current_version := 3,
             versions := [⟨1, version_rel "retro" 1, demoHash [], 0⟩,
                          ⟨2, version_rel "retro" 2, demoHash [118, 50], 1⟩,
                          ⟨3, version_rel "retro" 3, demoHash [], 2⟩],
             working_hash := some (demoHash []) } ∧
    alookup (rollback demoHash 2 retroState2 "retro" (some 1)).2.blobs
      (version_rel "retro" 3) = some [] ∧
    alookup (rollback demoHash 2 retroState2 "retro" (some 1)).2.workings "retro" = some [] := by
  have h := c4_rollback_copies_forward demoHash 2 retroState2 retroState2 "retro" "retro"
    (some 1) false
    { title := "Retro", slug := "retro", created_at := 0, updated_at := 1,
      current_version := 2,
      versions := [⟨1, version_rel "retro" 1, demoHash [], 0⟩,
                   ⟨2, version_rel "retro" 2, demoHash [118, 50], 1⟩],
      working_hash := some (demoHash [118, 50]) }
    ⟨1, version_rel "retro" 1, demoHash [], 0⟩ []
    (by decide) (by decide) (by decide) (by decide) (by decide) (by decide)
  exact ⟨h.1, h.2.1, h.2.2.1, h.2.2.2.1⟩

/-! Helpers for the idempotence analysis of `snapshot_if_changed`. -/

theorem snapshotAppend_facts (now : Nat) (s : AppState) (slug : String) (note : NoteMeta)
    (content : Bytes) (hash : String) (hN : alookup s.notes slug = some note) :
    (snapshotAppend now s slug note content hash).1 = .ok true ∧
    (snapshotAppend now s slug note content hash).2.workings = s.workings ∧
    alookup (snapshotAppend now s slug note content hash).2.notes slug =
      some (bumpNote ⟨note.current_version + 1, version_rel slug (note.current_version + 1),
        hash, now⟩ now (note.current_version + 1) hash note) := by
  unfold snapshotAppend
  dsimp only
  refine ⟨rfl, rfl, ?_⟩
  rw [alookup_updateEntries_self, hN]
  rfl

theorem snapshotAppend_post {now : Nat} {s₀ s₁ : AppState} {slug : String} {note : NoteMeta}
    {content : Bytes} {hash : String} {er : Except Err Bool}
    (hN : alookup s₀.notes slug = some note)
    (hW : alookup s₀.workings slug = some content)
    (h : snapshotAppend now s₀ slug note content hash = (er, s₁)) :
    alookup s₁.workings slug = some content ∧
    ∃ note₁ last, alookup s₁.notes slug = some note₁ ∧
      note₁.versions.getLast? = some last ∧ last.hash = hash ∧
      note₁.working_hash = some hash := by
  have hs₁ : s₁ = (snapshotAppend now s₀ slug note content hash).2 :=
    (congrArg Prod.snd h).symm
  obtain ⟨h1, h2, h3⟩ := snapshotAppend_facts now s₀ slug note content hash hN
  subst hs₁
  refine ⟨by rw [h2]; exact hW, _,
    ⟨note.current_version + 1, version_rel slug (note.current_version + 1), hash, now⟩,
    h3, ?_, rfl, rfl⟩
  simp [bumpNote, List.getLast?_concat]

theorem snapshot_ok_facts {hashB : Bytes → String} {now : Nat} {s s₁ : AppState}
    {slug : String} {r : Bool}
    (h : snapshot_if_changed hashB now s slug = (.ok r, s₁)) :
    ∃ content note₁ last,
      alookup s₁.workings slug = some content ∧
      alookup s₁.notes slug = some note₁ ∧
      note₁.versions.getLast? = some last ∧
      last.hash = hashB content ∧
      note₁.working_hash = some (hashB content) := by
  unfold snapshot_if_changed at h
  split at h
  · simp at h
  next s₀ hE =>
    split at h
    · simp at h
    next note hN =>
      split at h
      · simp at h
      next content hW =>
        dsimp only at h
        split at h
        next last hL =>
          split at h
          next heq =>
            have hs₁ : s₁ =
                { s₀ with notes := updateEntries s₀.notes slug (cacheHash (hashB content)) } := by
              have h2 := congrArg Prod.snd h
              simpa using h2.symm
            subst hs₁
            refine ⟨content, cacheHash (hashB content) note, last, ?_, ?_, ?_, ?_, ?_⟩
            · exact hW
            · dsimp only
              rw [alookup_updateEntries_self, hN]
              rfl
            · simpa [cacheHash] using hL
            · rw [heq]
            · rfl
          next hne =>
            obtain ⟨hw1, note₁, last, hfacts⟩ := snapshotAppend_post hN hW h
            exact ⟨content, note₁, last, hw1, hfacts⟩
        next hL =>
          obtain ⟨hw1, note₁, last, hfacts⟩ := snapshotAppend_post hN hW h
          exact ⟨content, note₁, last, hw1, hfacts⟩

theorem cacheHash_self {note : NoteMeta} {hash : String}
    (h : note.working_hash = some hash) : cacheHash hash note = note := by
  cases note
  simp_all [cacheHash]

theorem ensure_trivial {s : AppState} {slug : String} {content : Bytes}
    (hW : alookup s.workings slug = some content) :
    ensure_working_copy_exists s slug = .ok s := by
  unfold ensure_working_copy_exists
  rw [hW]
  rfl

theorem snapshot_unchanged_shape {hashB : Bytes → String} {now : Nat} {s : AppState}
    {slug : String} {content : Bytes} {note : NoteMeta} {last : VersionMeta}
    (hN : alookup s.notes slug = some note)
    (hW : alookup s.workings slug = some content)
    (hL : note.versions.getLast? = some last)
    (hh : last.hash = hashB content) :
    snapshot_if_changed hashB now s slug =
      (.ok false, { s with notes := updateEntries s.notes slug (cacheHash (hashB content)) }) := by
  unfold snapshot_if_changed
  rw [ensure_trivial hW]
  simp only [hN, hW, hL]
  rw [if_pos hh]

theorem snapshot_second_call {hashB : Bytes → String} {now' : Nat} {s₁ : AppState}
    {slug : String} {content : Bytes} {note₁ : NoteMeta} {last : VersionMeta}
    (hW : alookup s₁.workings slug = some content)
    (hN : alookup s₁.notes slug = some note₁)
    (hL : note₁.versions.getLast? = some last)
    (hh : last.hash = hashB content)
    (hwh : note₁.working_hash = some (hashB content)) :
    snapshot_if_changed hashB now' s₁ slug = (.ok false, s₁) := by
  rw [snapshot_unchanged_shape hN hW hL hh]
  have heq : updateEntries s₁.notes slug (cacheHash (hashB content)) = s₁.notes := by
    apply updateEntries_eq_self
    intro v hv
    rw [hN] at hv
    injection hv with hv
    subst hv
    exact cacheHash_self hwh
  rw [heq]

/-- C3 counterexample. On the Retro store whose working copy holds `"v2"`
while the last recorded version is the empty version 1, the first of two
back-to-back `snapshot_if_changed` calls (with no intervening modification)
returns "changed" (`true`), not "unchanged", and appends a version record
(the count grows from 1 to 2) — so "returns false both times and appends no
VersionRecord" is false as stated for every note. -/
theorem c3_counterexample_first_call_changed :
    (snapshot_if_changed demoHash 1 retroState1 "retro").1 = .ok true ∧
    (alookup retroState1.notes "retro").map (fun n => n.versions.length) = some 1 ∧
    (alookup (snapshot_if_changed demoHash 1 retroState1 "retro").2.notes "retro").map
      (fun n => n.versions.length) = some 2 := by
  decide

/-- C3 (amended). `snapshot_if_changed` is idempotent in the sense that after
any successful call, a second call with no intervening working-copy
modification returns "unchanged" (`false`), appends nothing, and leaves the
state exactly as it was (the first call may legitimately return "changed"
when the working copy differs from the last version). On the unchanged path
the result state differs from the input only by the refreshed `working_hash`
(`versions`, `current_version` and `updated_at` are untouched), and the
decision is a function of the last version record's hash and the working
content's hash alone — the cached `working_hash` plays no role. -/
theorem c3_snapshot_idempotent_amended (hashB : Bytes → String) :
    (∀ now now' s slug r s₁, snapshot_if_changed hashB now s slug = (.ok r, s₁) →
       snapshot_if_changed hashB now' s₁ slug = (.ok false, s₁)) ∧
    (∀ now s slug note c last, alookup s.notes slug = some note →
       alookup s.workings slug = some c → note.versions.getLast? = some last →
       last.hash = hashB c →
       snapshot_if_changed hashB now s slug =
         (.ok false, { s with notes := updateEntries s.notes slug (cacheHash (hashB c)) }) ∧
       alookup (updateEntries s.notes slug (cacheHash (hashB c))) slug =
         some { note with working_hash := some (hashB c) }) ∧
    (∀ now s slug note c last, alookup s.notes slug = some note →
       alookup s.workings slug = some c → note.versions.getLast? = some last →
       (snapshot_if_changed hashB now s slug).1 =
         (if last.hash = hashB c then .ok false else .ok true)) := by
  refine ⟨?_, ?_, ?_⟩
  · intro now now' s slug r s₁ h
    obtain ⟨c, n₁, l, hW, hN, hL, hh, hwh⟩ := snapshot_ok_facts h
    exact snapshot_second_call hW hN hL hh hwh
  · intro now s slug note c last hn hw hl hh
    refine ⟨snapshot_unchanged_shape hn hw hl hh, ?_⟩
    rw [alookup_updateEntries_self, hn]
    rfl
  · intro now s slug note c last hn hw hl
    unfold snapshot_if_changed
    rw [ensure_trivial hw]
    simp only [hn, hw, hl]
    by_cases hh : last.hash = hashB c
    · rw [if_pos hh, if_pos hh]
    · rw [if_neg hh, if_neg hh]
      exact (snapshotAppend_facts now s slug note c (hashB c) hn).1

/-- Witness for the amended C3: the second call on the Retro store (after the
promotion of `"v2"`) returns "unchanged" and leaves the state identical. -/
theorem c3_snapshot_idempotent_amended_witness :
    snapshot_if_changed demoHash 7 retroState2 "retro" = (.ok false, retroState2) :=
  (c3_snapshot_idempotent_amended demoHash).1 1 7 retroState1 "retro" true retroState2
    (by decide)

/-- C6 counterexample. In a store holding one note titled `My Note` with slug
`my-note`, the identifier `my note` (equal to the title up to case, equal to
no slug) resolves fine for open/rollback/versions via `resolve_slug`, but
`delete` — which matches only on lowercased slugs — fails with NotFound
instead of resolving to that note, so the resolution rule claimed for all
four operations does not hold for delete. -/
theorem c6_counterexample_delete_title :
    resolve_slug myNoteState "my note" = some "my-note" ∧
    delete_note_by_title myNoteState "my note" =
      (.error (.notFound "my note"), myNoteState) := by
  decide

/-- C6 (amended). For open, rollback and versions an identifier resolves by
exact slug (index key) match first, then by a single scan accepting either
case-insensitive title equality or equality of the lowercased identifier with
the note's slug; in particular an identifier equal to some note's title up to
case (and matching no slug) resolves to a title-matching note, and all three
operations act on the resolved slug (erroring with NotFound when resolution
fails). Delete instead matches only notes whose lowercased slug equals the
raw identifier: no such note is NotFound, a unique one is the resolved
target. -/
theorem c6_resolution_amended :
    (∀ s identifier m, alookup s.notes identifier = some m →
       resolve_slug s identifier = some identifier) ∧
    (∀ s identifier n₀, alookup s.notes identifier = none →
       (∀ n ∈ s.notes.map Prod.snd, n.slug ≠ strLower identifier) →
       n₀ ∈ s.notes.map Prod.snd → strLower n₀.title = strLower identifier →
       ∃ n', n' ∈ s.notes.map Prod.snd ∧ strLower n'.title = strLower identifier ∧
         resolve_slug s identifier = some n'.slug) ∧
    (∀ hB now s identifier sl b s₁, resolve_slug s identifier = some sl →
       snapshot_if_changed hB now s sl = (.ok b, s₁) →
       open_note hB now s identifier = (.ok (working_file sl), s₁)) ∧
    (∀ s identifier sl n, resolve_slug s identifier = some sl →
       alookup s.notes sl = some n →
       list_versions s identifier = .ok (n.versions.map (fun v => (v.version, v.path)))) ∧
    (∀ hB now s identifier tgt, resolve_slug s identifier = none →
       rollback hB now s identifier tgt = (.error (.notFound identifier), s) ∧
       open_note hB now s identifier = (.error (.notFound identifier), s) ∧
       list_versions s identifier = .error (.notFound identifier)) ∧
    (∀ s identifier,
       (s.notes.map Prod.snd).filter (fun n => strLower n.slug == identifier) = [] →
       delete_note_by_title s identifier = (.error (.notFound identifier), s)) ∧
    (∀ s identifier n,
       (s.notes.map Prod.snd).filter (fun n' => strLower n'.slug == identifier) = [n] →
       resolve_unique_title_slug s identifier = .ok n.slug) := by
  refine ⟨?_, ?_, ?_, ?_, ?_, ?_, ?_⟩
  · intro s identifier m h
    unfold resolve_slug
    rw [if_pos (by simp [h])]
  · intro s identifier n₀ hnone hslug hmem htitle
    have hex : ∃ x ∈ s.notes.map Prod.snd,
        (strLower x.title == strLower identifier || x.slug == strLower identifier) = true :=
      ⟨n₀, hmem, by simp [htitle]⟩
    obtain ⟨n', hfind⟩ := Option.isSome_iff_exists.1 (List.find?_isSome.2 hex)
    have hmem' := List.mem_of_find?_eq_some hfind
    have hp := List.find?_some hfind
    have htitle' : strLower n'.title = strLower identifier := by
      rw [Bool.or_eq_true] at hp
      rcases hp with h | h
      · simpa using h
      · exact absurd (by simpa using h) (hslug n' hmem')
    refine ⟨n', hmem', htitle', ?_⟩
    unfold resolve_slug
    rw [if_neg (by simp [hnone])]
    dsimp only
    rw [hfind]
    rfl
  · intro hB now s identifier sl b s₁ hres hsnap
    unfold open_note
    simp only [hres, hsnap]
  · intro s identifier sl n hres hn
    unfold list_versions
    simp only [hres, hn]
  · intro hB now s identifier tgt hres
    refine ⟨?_, ?_, ?_⟩
    · unfold rollback
      simp only [hres]
    · unfold open_note
      simp only [hres]
    · unfold list_versions
      simp only [hres]
  · intro s identifier hfil
    unfold delete_note_by_title resolve_unique_title_slug
    rw [hfil]
  · intro s identifier n hfil
    unfold resolve_unique_title_slug
    rw [hfil]

/-- Witness for the amended C6: `versions` invoked with the identifier
`my note` (a case-insensitive title match) resolves to the `my-note` note and
lists its history. -/
theorem c6_resolution_amended_witness :
    list_versions myNoteState "my note" =
      .ok [(1, version_rel "my-note" 1)] :=
  c6_resolution_amended.2.2.2.1 myNoteState "my note" "my-note"
    { title := "My Note", slug := "my-note", created_at := 0, updated_at := 0,
      current_version := 1,
      versions := [⟨1, version_rel "my-note" 1, demoHash [], 0⟩],
      working_hash := some (demoHash []) }
    (by decide) (by decide)

/-- C7. Deleting by an identifier that matches more than one note under
delete's matching rule (lowercased slug equals the identifier) fails with an
Ambiguous error and returns the store exactly unchanged: no note record,
version blob or working copy is removed. -/
theorem c7_delete_ambiguous_atomic (s : AppState) (title : String)
    (h : 2 ≤ ((s.notes.map Prod.snd).filter (fun n => strLower n.slug == title)).length) :
    delete_note_by_title s title = (.error (.ambiguous title), s) := by
  cases hfil : (s.notes.map Prod.snd).filter (fun n => strLower n.slug == title) with
  | nil => rw [hfil] at h; simp at h
  | cons a t' =>
    cases t' with
    | nil => rw [hfil] at h; simp at h
    | cons b t =>
      unfold delete_note_by_title resolve_unique_title_slug
      rw [hfil]

/-- Witness for C7: on a hand-crafted index with slugs `Foo` and `foo`, the
identifier `foo` matches both notes and delete fails ambiguously, touching
nothing. -/
theorem c7_delete_ambiguous_atomic_witness :
    delete_note_by_title ambigState "foo" = (.error (.ambiguous "foo"), ambigState) :=
  c7_delete_ambiguous_atomic ambigState "foo" (by decide)

/-! Helpers for the panic analysis (C10). -/

theorem current_version_path_eq_none_iff (note : NoteMeta) :
    current_version_path note = none ↔ note.versions = [] := by
  unfold current_version_path
  cases hf : note.versions.find? (fun v => v.version == note.current_version) with
  | some v =>
    have hne := List.ne_nil_of_mem (List.mem_of_find?_eq_some hf)
    simp [hne]
  | none => simp [Option.map_eq_none', List.getLast?_eq_none_iff]

theorem mem_insertByTitle {n x : NoteMeta} {l : List NoteMeta} :
    x ∈ insertByTitle n l ↔ x = n ∨ x ∈ l := by
  induction l with
  | nil => simp [insertByTitle]
  | cons m rest ih =>
    unfold insertByTitle
    by_cases h : !(strLower m.title < strLower n.title)
    · rw [if_pos h]
      simp [List.mem_cons]
    · rw [if_neg h]
      simp only [List.mem_cons, ih]
      tauto

theorem mem_sortByTitle {x : NoteMeta} {l : List NoteMeta} :
    x ∈ sortByTitle l ↔ x ∈ l := by
  induction l with
  | nil => simp [sortByTitle]
  | cons m rest ih => simp [sortByTitle, mem_insertByTitle, ih]

theorem searchLoop_eq_none_iff (s : AppState) (needle : Bytes) (l : List NoteMeta) :
    searchLoop s needle l = none ↔ ∃ n ∈ l, n.versions = [] := by
  induction l with
  | nil => simp [searchLoop]
  | cons note rest ih =>
    unfold searchLoop
    cases hc : current_version_path note with
    | none =>
      have hv : note.versions = [] := (current_version_path_eq_none_iff note).1 hc
      simp only [hc]
      constructor
      · intro _
        exact ⟨note, by simp, hv⟩
      · intro _
        trivial
    | some path =>
      have hv : note.versions ≠ [] := by
        intro hnil
        rw [(current_version_path_eq_none_iff note).2 hnil] at hc
        cases hc
      simp only [hc]
      cases hr : searchLoop s needle rest with
      | none =>
        obtain ⟨n, hn, hvn⟩ := ih.1 hr
        simp only [hr]
        constructor
        · intro _
          exact ⟨n, List.mem_cons_of_mem _ hn, hvn⟩
        · intro _
          trivial
      | some acc =>
        simp only [hr]
        constructor
        · intro hcontra
          by_cases hb : containsSeq needle (((alookup s.blobs path).getD []).map lowerByte) = true
          · rw [if_pos hb] at hcontra
            cases hcontra
          · rw [if_neg hb] at hcontra
            cases hcontra
        · rintro ⟨n, hn, hvn⟩
          rcases List.mem_cons.1 hn with heq | hmem
          · subst heq
            exact absurd hvn hv
          · exact absurd (ih.2 ⟨n, hmem, hvn⟩) (by simp [hr])

/-- C10. `current_version_path` "panics" (models the `expect("note has
versions")`) exactly when the note's `versions` list is empty; consequently
working-copy materialization panics on such a note whose working file is
missing, `search` panics whenever any indexed note has an empty `versions`
list, and both operations are panic-free whenever every indexed note has at
least one version record — a metadata file violating the invariant crashes
these operations rather than yielding an error value. -/
theorem c10_empty_versions_panics :
    (∀ note : NoteMeta, current_version_path note = none ↔ note.versions = []) ∧
    (∀ s slug note, alookup s.notes slug = some note → note.versions = [] →
       alookup s.workings slug = none →
       ensure_working_copy_exists s slug = .error .panicked) ∧
    (∀ s q kn, kn ∈ s.notes → kn.2.versions = [] → search s q = none) ∧
    (∀ s q, (∀ kn ∈ s.notes, kn.2.versions ≠ []) → search s q ≠ none) ∧
    (∀ s slug, (∀ kn ∈ s.notes, kn.2.versions ≠ []) →
       ensure_working_copy_exists s slug ≠ .error .panicked) := by
  refine ⟨current_version_path_eq_none_iff, ?_, ?_, ?_, ?_⟩
  · intro s slug note hN hv hW
    unfold ensure_working_copy_exists
    rw [if_neg (by simp [hW])]
    simp only [hN]
    rw [(current_version_path_eq_none_iff note).2 hv]
  · intro s q kn hmem hv
    unfold search
    exact (searchLoop_eq_none_iff _ _ _).2
      ⟨kn.2, mem_sortByTitle.2 (List.mem_map_of_mem Prod.snd hmem), hv⟩
  · intro s q h hnone
    obtain ⟨n, hn, hv⟩ := (searchLoop_eq_none_iff _ _ _).1 hnone
    obtain ⟨kn, hkn, heq⟩ := List.mem_map.1 (mem_sortByTitle.1 hn)
    exact h kn hkn (heq ▸ hv)
  · intro s slug h
    unfold ensure_working_copy_exists
    split
    · simp
    · split
      · simp
      next note hN =>
        split
        next hc =>
          intro _
          exact h (slug, note) (alookup_mem hN)
            ((current_version_path_eq_none_iff note).1 hc)
        next path hc =>
          split
          · simp
          · simp

/-- Witness for C10: a hand-edited index with a note whose `versions` list is
empty makes working-copy materialization (and hence open/snapshot) crash with
the modelled panic instead of an error. -/
theorem c10_empty_versions_panics_witness :
    ensure_working_copy_exists emptyVersionsState "ghost" = .error .panicked :=
  c10_empty_versions_panics.2.1 emptyVersionsState "ghost"
    { title := "Ghost", slug := "ghost", created_at := 0, updated_at := 0,
      current_version := 1, versions := [], working_hash := none }
    (by decide) (by decide) (by decide)

/-- C9 counterexample. A marker file containing unparseable content (`oops`)
does not identify a live process, and `daemon_running` does report that no
watcher is running — but it leaves the marker file in place, unlike the
"no marker file" state whose file is (vacuously) absent; the claimed removal
of every stale marker does not happen. -/
theorem c9_counterexample_unparseable_marker_kept :
    daemon_running (fun _ => ProbeResult.esrch) (some "oops") = (false, some "oops") ∧
    daemon_running (fun _ => ProbeResult.esrch) none = (false, none) := by
  decide

/-- C9 (amended). For every marker-file content that does not identify a live
process the singleton check reports that no watcher is running and a new
watcher is spawned; however, the marker file is removed only when the content
parses to a positive process id whose liveness probe fails with "no such
process". Content that fails to parse, or parses to a non-positive id, is
left in place (to be overwritten when the new watcher writes its own pid). A
live probed id keeps the file and prevents spawning. -/
theorem c9_stale_marker_amended (probe : Int → ProbeResult) (content : String) (pid : Int) :
    (daemon_running probe none = (false, none)) ∧
    (parse_i32 (strTrim content) = none →
       daemon_running probe (some content) = (false, some content) ∧
       (ensure_daemon_running probe false (some content)).1 = true) ∧
    (parse_i32 (strTrim content) = some pid → pid ≤ 0 →
       daemon_running probe (some content) = (false, some content) ∧
       (ensure_daemon_running probe false (some content)).1 = true) ∧
    (parse_i32 (strTrim content) = some pid → 0 < pid → probe pid = .esrch →
       daemon_running probe (some content) = (false, none) ∧
       (ensure_daemon_running probe false (some content)).1 = true) ∧
    (parse_i32 (strTrim content) = some pid → 0 < pid → probe pid = .live →
       daemon_running probe (some content) = (true, some content) ∧
       (ensure_daemon_running probe false (some content)).1 = false) := by
  refine ⟨rfl, ?_, ?_, ?_, ?_⟩
  · intro hp
    have hd : daemon_running probe (some content) = (false, some content) := by
      unfold daemon_running
      simp only [hp]
    exact ⟨hd, by simp [ensure_daemon_running, hd]⟩
  · intro hp hle
    have hd : daemon_running probe (some content) = (false, some content) := by
      unfold daemon_running
      simp only [hp]
      rw [if_pos hle]
    exact ⟨hd, by simp [ensure_daemon_running, hd]⟩
  · intro hp hpos hprobe
    have hd : daemon_running probe (some content) = (false, none) := by
      unfold daemon_running
      simp only [hp]
      rw [if_neg (by omega)]
      simp only [hprobe]
    exact ⟨hd, by simp [ensure_daemon_running, hd]⟩
  · intro hp hpos hprobe
    have hd : daemon_running probe (some content) = (true, some content) := by
      unfold daemon_running
      simp only [hp]
      rw [if_neg (by omega)]
      simp only [hprobe]
    exact ⟨hd, by simp [ensure_daemon_running, hd]⟩

/-- Witness for the amended C9: a marker holding `7` whose probe reports "no
such process" is removed and a new watcher is spawned. -/
theorem c9_stale_marker_amended_witness :
    daemon_running (fun p => if p = 7 then ProbeResult.esrch else ProbeResult.live)
      (some "7") = (false, none) ∧
    (ensure_daemon_running (fun p => if p = 7 then ProbeResult.esrch else ProbeResult.live)
      false (some "7")).1 = true :=
  (c9_stale_marker_amended (fun p => if p = 7 then ProbeResult.esrch else ProbeResult.live)
    "7" 7).2.2.2.1 (by decide) (by decide) (by decide)

/-! Helpers for the debounce analysis (C8). -/

theorem dstep_fsEvent_qual {paths : List String} {t : Nat} (st : DState)
    (h : event_qualifies paths = true) :
    dstep st (DaemonMsg.fsEvent paths t) = (⟨true, t⟩, false) := by
  simp only [dstep]
  rw [if_pos h]

theorem dstep_fsEvent_nonqual {paths : List String} {t : Nat} (st : DState)
    (h : ¬event_qualifies paths = true) :
    dstep st (DaemonMsg.fsEvent paths t) = (st, false) := by
  simp only [dstep]
  rw [if_neg h]

theorem dstep_watchError_eq (st : DState) :
    dstep st DaemonMsg.watchError = (st, false) := rfl

theorem dstep_timeout_fire {t : Nat} (st : DState)
    (h : st.pending = true ∧ cooldown ≤ t - st.last_event) :
    dstep st (DaemonMsg.timeout t) = (⟨false, st.last_event⟩, true) := by
  simp only [dstep]
  rw [if_pos h]

theorem dstep_timeout_skip {t : Nat} (st : DState)
    (h : ¬(st.pending = true ∧ cooldown ≤ t - st.last_event)) :
    dstep st (DaemonMsg.timeout t) = (st, false) := by
  simp only [dstep]
  rw [if_neg h]

theorem dstep_timeout_spec (st : DState) (t : Nat) :
    (dstep st (DaemonMsg.timeout t)).2 = true ↔
      (st.pending = true ∧ cooldown ≤ t - st.last_event) := by
  by_cases h : st.pending = true ∧ cooldown ≤ t - st.last_event
  · rw [dstep_timeout_fire st h]
    simpa using h
  · rw [dstep_timeout_skip st h]
    simpa using h

theorem dstep_timeout_clears (st : DState) (t : Nat)
    (h : (dstep st (DaemonMsg.timeout t)).2 = true) :
    (dstep st (DaemonMsg.timeout t)).1.pending = false := by
  by_cases hc : st.pending = true ∧ cooldown ≤ t - st.last_event
  · rw [dstep_timeout_fire st hc]
  · rw [dstep_timeout_skip st hc] at h
    cases h

theorem pass_count_cons (st : DState) (m : DaemonMsg) (rest : List DaemonMsg)
    (hnd : m ≠ DaemonMsg.disconnected) :
    pass_count st (m :: rest) =
      (if (dstep st m).2 then 1 else 0) + pass_count (dstep st m).1 rest := by
  cases m with
  | fsEvent paths t => rfl
  | watchError => rfl
  | timeout t => rfl
  | disconnected => exact absurd rfl hnd

theorem times_mono_all {t0 : Nat} {msgs : List DaemonMsg} (h : times_mono t0 msgs = true) :
    ∀ v ∈ qual_times msgs, t0 ≤ v := by
  induction msgs generalizing t0 with
  | nil => simp [qual_times]
  | cons m rest ih =>
    cases m with
    | fsEvent paths t =>
      simp only [times_mono, msg_time, Bool.and_eq_true] at h
      obtain ⟨h1, h2⟩ := h
      have h1' : t0 ≤ t := of_decide_eq_true h1
      intro v hv
      simp only [qual_times] at hv
      by_cases hq : event_qualifies paths = true
      · rw [if_pos hq] at hv
        rcases List.mem_cons.1 hv with heq | hv'
        · subst heq
          exact h1'
        · exact le_trans h1' (ih h2 v hv')
      · rw [if_neg hq] at hv
        exact le_trans h1' (ih h2 v hv)
    | timeout t =>
      simp only [times_mono, msg_time, Bool.and_eq_true] at h
      obtain ⟨h1, h2⟩ := h
      intro v hv
      simp only [qual_times] at hv
      exact le_trans (of_decide_eq_true h1) (ih h2 v hv)
    | watchError =>
      simp only [times_mono, msg_time] at h
      intro v hv
      simp only [qual_times] at hv
      exact ih h v hv
    | disconnected =>
      simp only [times_mono, msg_time] at h
      intro v hv
      simp only [qual_times] at hv
      exact ih h v hv

theorem pass_count_no_qual {msgs : List DaemonMsg} :
    ∀ {st : DState}, st.pending = false → qual_times msgs = [] → pass_count st msgs = 0 := by
  induction msgs with
  | nil =>
    intro st _ _
    simp [pass_count]
  | cons m rest ih =>
    intro st hp hq
    cases m with
    | disconnected => simp [pass_count]
    | watchError =>
      simp only [qual_times] at hq
      rw [pass_count_cons st _ rest (by simp), dstep_watchError_eq]
      simpa using ih hp hq
    | fsEvent paths t =>
      simp only [qual_times] at hq
      by_cases hqq : event_qualifies paths = true
      · rw [if_pos hqq] at hq
        cases hq
      · rw [if_neg hqq] at hq
        rw [pass_count_cons st _ rest (by simp), dstep_fsEvent_nonqual st hqq]
        simpa using ih hp hq
    | timeout t =>
      simp only [qual_times] at hq
      have hskip : ¬(st.pending = true ∧ cooldown ≤ t - st.last_event) := by
        intro hc
        rw [hp] at hc
        cases hc.1
      rw [pass_count_cons st _ rest (by simp), dstep_timeout_skip st hskip]
      simpa using ih hp hq

theorem pass_count_le_one_aux (msgs : List DaemonMsg) :
    ∀ (st : DState) (tcur : Nat),
    times_mono tcur msgs = true →
    (∀ u ∈ qual_times msgs, ∀ v ∈ qual_times msgs, v < u + cooldown) →
    (st.pending = true → ∀ v ∈ qual_times msgs, v < st.last_event + cooldown) →
    pass_count st msgs ≤ 1 := by
  induction msgs with
  | nil =>
    intro st tcur _ _ _
    simp [pass_count]
  | cons m rest ih =>
    intro st tcur hmono hburst hpend
    cases m with
    | disconnected => simp [pass_count]
    | watchError =>
      simp only [times_mono, msg_time] at hmono
      rw [pass_count_cons st _ rest (by simp), dstep_watchError_eq]
      refine le_trans (by simp) (ih st tcur hmono ?_ ?_)
      · intro u hu v hv
        exact hburst u (by simpa [qual_times] using hu) v (by simpa [qual_times] using hv)
      · intro hp v hv
        exact hpend hp v (by simpa [qual_times] using hv)
    | fsEvent paths t =>
      simp only [times_mono, msg_time, Bool.and_eq_true] at hmono
      obtain ⟨h1, h2⟩ := hmono
      by_cases hq : event_qualifies paths = true
      · have hqt : qual_times (DaemonMsg.fsEvent paths t :: rest) = t :: qual_times rest := by
          simp [qual_times, hq]
        rw [pass_count_cons st _ rest (by simp), dstep_fsEvent_qual st hq]
        refine le_trans (by simp) (ih ⟨true, t⟩ t h2 ?_ ?_)
        · intro u hu v hv
          exact hburst u (by rw [hqt]; exact List.mem_cons_of_mem _ hu) v
            (by rw [hqt]; exact List.mem_cons_of_mem _ hv)
        · intro _ v hv
          exact hburst t (by rw [hqt]; exact List.mem_cons_self _ _) v
            (by rw [hqt]; exact List.mem_cons_of_mem _ hv)
      · have hqt : qual_times (DaemonMsg.fsEvent paths t :: rest) = qual_times rest := by
          simp [qual_times, hq]
        rw [pass_count_cons st _ rest (by simp), dstep_fsEvent_nonqual st hq]
        refine le_trans (by simp) (ih st t h2 ?_ ?_)
        · intro u hu v hv
          exact hburst u (by rw [hqt]; exact hu) v (by rw [hqt]; exact hv)
        · intro hp v hv
          exact hpend hp v (by rw [hqt]; exact hv)
    | timeout t =>
      simp only [times_mono, msg_time, Bool.and_eq_true] at hmono
      obtain ⟨h1, h2⟩ := hmono
      by_cases hfire : st.pending = true ∧ cooldown ≤ t - st.last_event
      · have hnoq : qual_times rest = [] := by
          by_contra hne
          obtain ⟨v, hv⟩ := List.exists_mem_of_ne_nil _ hne
          have hv1 : t ≤ v := times_mono_all h2 v hv
          have hv2 : v < st.last_event + cooldown :=
            hpend hfire.1 v (by simpa [qual_times] using hv)
          have hv3 := hfire.2
          unfold cooldown at hv2 hv3
          omega
        rw [pass_count_cons st _ rest (by simp), dstep_timeout_fire st hfire]
        rw [pass_count_no_qual rfl hnoq]
        simp
      · rw [pass_count_cons st _ rest (by simp), dstep_timeout_skip st hfire]
        refine le_trans (by simp) (ih st t h2 ?_ ?_)
        · intro u hu v hv
          exact hburst u (by simpa [qual_times] using hu) v (by simpa [qual_times] using hv)
        · intro hp v hv
          exact hpend hp v (by simpa [qual_times] using hv)

/-- C8. For every message trace the daemon loop can observe (with a monotone
clock), if all qualifying events — those with an `md`-extension path — arrive
within one cooldown window of each other, the loop executes at most one
synchronization pass; moreover a pass runs on a timeout expiry exactly when
the dirty flag is set and at least one full cooldown has elapsed since the
last qualifying event, and such a pass clears the dirty flag. -/
theorem c8_debounce_at_most_one_pass (t0 : Nat) (msgs : List DaemonMsg)
    (hmono : times_mono t0 msgs = true)
    (hburst : ∀ u ∈ qual_times msgs, ∀ v ∈ qual_times msgs, v < u + cooldown) :
    pass_count ⟨false, t0⟩ msgs ≤ 1 ∧
    (∀ st t, (dstep st (DaemonMsg.timeout t)).2 = true ↔
       (st.pending = true ∧ cooldown ≤ t - st.last_event)) ∧
    (∀ st t, (dstep st (DaemonMsg.timeout t)).2 = true →
       (dstep st (DaemonMsg.timeout t)).1.pending = false) :=
  ⟨pass_count_le_one_aux msgs ⟨false, t0⟩ t0 hmono hburst (by simp),
   dstep_timeout_spec, dstep_timeout_clears⟩

/-- Witness for C8: a burst of two qualifying events 4 seconds apart followed
by three timeout ticks produces exactly one synchronization pass (and in
particular at most one). -/
theorem c8_debounce_at_most_one_pass_witness :
    pass_count ⟨false, 0⟩
      [DaemonMsg.fsEvent ["files/a.md"] 5, DaemonMsg.fsEvent ["files/b.md"] 9,
       DaemonMsg.timeout 30, DaemonMsg.timeout 60, DaemonMsg.timeout 90] ≤ 1 :=
  (c8_debounce_at_most_one_pass 0 _ (by decide) (by decide)).1

end Notes
